import Mathlib

/-!
# Item CRUD service (`main.go`)

A shallow embedding of the five request handlers of the service, the in-process
registry `items`, the Redis mirror and the Logstash hook, followed by the
properties of the handlers.

Modelling conventions.
* A Go `map[string]V` is an association list; `m[k] = v` drops every older
  binding of `k` and adds the new one, `delete(m, k)` drops every binding of
  `k`.  Go leaves the iteration order of `range` unspecified; the embedding
  iterates in list order.
* A Go slice is `Option (List α)`: `none` is the nil slice, `some []` an empty
  non-nil slice.
* `time.Now().UnixNano()` is an input of the request (`Env.now`), as are the
  outcomes of the write to the Logstash connection and of the Redis call.
* `c.ShouldBindJSON(&x)` is represented by its outcome: the bound `Item` or the
  error text.
-/

namespace ElkCrud

/-! ## Data model -/

/-- Item is the `Item` struct of `main.go`. -/
structure Item where
  ID : String
  Name : String
  Description : String
deriving DecidableEq, Repr

/-- Go `v, ok := m[k]` on an association list. -/
def mapLookup {V : Type} : List (String × V) → String → Option V
  | [], _ => none
  | (k', v) :: rest, k => if k' = k then some v else mapLookup rest k

/-- Go `delete(m, k)`. -/
def mapDelete {V : Type} (m : List (String × V)) (k : String) : List (String × V) :=
  m.filter (fun p => decide (p.1 ≠ k))

/-- Go `m[k] = v`. -/
def mapStore {V : Type} (m : List (String × V)) (k : String) (v : V) : List (String × V) :=
  (k, v) :: mapDelete m k

/-- Go `append(s, x)` on a possibly nil slice. -/
def sliceAppend {α : Type} : Option (List α) → α → Option (List α)
  | none, x => some [x]
  | some l, x => some (l ++ [x])

/-- The value handed to `c.JSON`: an `Item`, a `[]Item` slice or a `gin.H` map. -/
inductive Body where
  | item (it : Item)
  | itemList (l : Option (List Item))
  | h (fields : List (String × String))
deriving DecidableEq, Repr

/-- The HTTP response written by a handler. -/
structure Response where
  status : Nat
  body : Body
deriving DecidableEq, Repr

/-- A logrus entry: level, message and data fields. -/
structure LogEntry where
  level : String
  msg : String
  data : List (String × String)
deriving DecidableEq, Repr

/-- A call issued on the Redis client. -/
inductive RedisCmd where
  | set (key value : String)
  | del (key : String)
deriving DecidableEq, Repr

/-- The process state and its two external collaborators. -/
structure World where
  /-- the global `items` map -/
  items : List (String × Item)
  /-- contents of the Redis store -/
  redis : List (String × String)
  /-- every call issued on `client`, oldest first -/
  redisCalls : List RedisCmd
  /-- entries delivered to the Logstash connection -/
  logstash : List LogEntry
  /-- hook failures reported by logrus on stderr -/
  stderr : List String
deriving DecidableEq, Repr

/-- What the environment decides during one request. -/
structure Env where
  /-- value of `time.Now().UnixNano()` -/
  now : Int
  /-- whether `hook.writer.Write` succeeds -/
  logOk : Bool
  /-- whether the Redis call succeeds -/
  redisOk : Bool
deriving DecidableEq, Repr

/-- The routes registered in `main`, with the outcome of `ShouldBindJSON` for
the two routes that read a body. -/
inductive Request where
  | create (bind : Except String Item)
  | list
  | get (id : String)
  | update (id : String) (bind : Except String Item)
  | delete (id : String)

/-- One request together with the environment it runs in. -/
structure Step where
  req : Request
  env : Env

/-- The state at process start: `items = make(map[string]Item)`. -/
def emptyWorld : World :=
  { items := [], redis := [], redisCalls := [], logstash := [], stderr := [] }

/-! ## `fmt.Sprintf("%d", n)` -/

/-- Decimal digits of `n`, most significant first, in front of `acc`. -/
def digitsAux : Nat → Nat → List Char → List Char
  | 0, _, acc => acc
  | fuel + 1, n, acc =>
    if n / 10 = 0 then Char.ofNat (48 + n % 10) :: acc
    else digitsAux fuel (n / 10) (Char.ofNat (48 + n % 10) :: acc)

/-- Decimal rendering of a natural number. -/
def formatNat (n : Nat) : List Char := digitsAux (n + 1) n []

/-- The string `fmt.Sprintf("%d", z)`. -/
def formatInt : Int → String
  | Int.ofNat n => String.mk (formatNat n)
  | Int.negSucc n => String.mk (Char.ofNat 45 :: formatNat (n + 1))

/-! ## `json.Marshal(item)` -/

/-- Lower-case hexadecimal digit. -/
def hexDigit (n : Nat) : Char :=
  if n < 10 then Char.ofNat (48 + n) else Char.ofNat (87 + n)

/-- The six characters of a `\uXXXX` escape. -/
def unicodeEscape (n : Nat) : List Char :=
  [Char.ofNat 92, Char.ofNat 117, hexDigit (n / 4096 % 16), hexDigit (n / 256 % 16),
   hexDigit (n / 16 % 16), hexDigit (n % 16)]

/-- Escaping of one character inside a JSON string, as `encoding/json` does with
HTML escaping on. -/
def jsonEscapeChar (c : Char) : List Char :=
  let n := c.toNat
  if n = 34 ∨ n = 92 then [Char.ofNat 92, c]
  else if n = 8 then [Char.ofNat 92, Char.ofNat 98]
  else if n = 12 then [Char.ofNat 92, Char.ofNat 102]
  else if n = 10 then [Char.ofNat 92, Char.ofNat 110]
  else if n = 13 then [Char.ofNat 92, Char.ofNat 114]
  else if n = 9 then [Char.ofNat 92, Char.ofNat 116]
  else if n < 32 ∨ n = 60 ∨ n = 62 ∨ n = 38 ∨ n = 8232 ∨ n = 8233 then unicodeEscape n
  else [c]

/-- A JSON string literal. -/
def jsonString (s : String) : String :=
  String.mk (Char.ofNat 34 :: (s.data.flatMap jsonEscapeChar ++ [Char.ofNat 34]))

/-- The bytes `json.Marshal` produces for an `Item`: the three tagged fields in
declaration order. -/
def jsonMarshal (it : Item) : String :=
  "\x7b\x22id\x22:" ++ jsonString it.ID ++ ",\x22name\x22:" ++ jsonString it.Name ++
    ",\x22description\x22:" ++ jsonString it.Description ++ "\x7d"

/-! ## Logstash hook and Redis client -/

/-- `LogstashHook.Fire`: tags the entry with the application name and writes it
to the connection; returns the tagged entry, the connection contents and whether
the write failed. -/
def fire (appName : String) (entry : LogEntry) (writeOk : Bool) (conn : List LogEntry) :
    LogEntry × List LogEntry × Bool :=
  let tagged : LogEntry := { entry with data := mapStore entry.data "app" appName }
  if writeOk then (tagged, conn ++ [tagged], false) else (tagged, conn, true)

/-- `Logger.WithFields(fields).Info(msg)`: logrus fires the hook and, when the
hook fails, reports that on stderr; nothing is returned to the caller. -/
def logInfo (w : World) (env : Env) (fields : List (String × String)) (msg : String) : World :=
  let r := fire "golang-crud-app" { level := "info", msg := msg, data := fields } env.logOk w.logstash
  { w with
    logstash := r.2.1
    stderr := if r.2.2 then w.stderr ++ ["Failed to fire hook"] else w.stderr }

/-- `client.Set(key, value, 0)`; returns the state and whether the call failed. -/
def redisSet (w : World) (env : Env) (key value : String) : World × Bool :=
  ({ w with
     redisCalls := w.redisCalls ++ [RedisCmd.set key value]
     redis := if env.redisOk then mapStore w.redis key value else w.redis }, !env.redisOk)

/-- `client.Del(key)`; returns the state and whether the call failed. -/
def redisDel (w : World) (env : Env) (key : String) : World × Bool :=
  ({ w with
     redisCalls := w.redisCalls ++ [RedisCmd.del key]
     redis := if env.redisOk then mapDelete w.redis key else w.redis }, !env.redisOk)

/-! ## Handlers -/

/-- Handler `createItem`. -/
def createItem (w : World) (env : Env) (bind : Except String Item) : World × Response :=
  match bind with
  | Except.error err => (w, { status := 400, body := Body.h [("error", err)] })
  | Except.ok bound =>
    let newItem : Item := { bound with ID := formatInt env.now }
    let w1 : World := { w with items := mapStore w.items newItem.ID newItem }
    let w2 := logInfo w1 env
      [("action", "create"), ("item_id", newItem.ID), ("item_name", newItem.Name),
       ("description", newItem.Description)] "Item created"
    let w3 := (redisSet w2 env newItem.ID (jsonMarshal newItem)).1
    (w3, { status := 201, body := Body.item newItem })

/-- Handler `getItems`. -/
def getItems (w : World) : World × Response :=
  let itemList : Option (List Item) := w.items.foldl (fun acc p => sliceAppend acc p.2) none
  (w, { status := 200, body := Body.itemList itemList })

/-- Handler `getItem`. -/
def getItem (w : World) (id : String) : World × Response :=
  match mapLookup w.items id with
  | none => (w, { status := 404, body := Body.h [("message", "Item not found")] })
  | some item => (w, { status := 200, body := Body.item item })

/-- Handler `updateItem`. -/
def updateItem (w : World) (env : Env) (id : String) (bind : Except String Item) :
    World × Response :=
  match bind with
  | Except.error err => (w, { status := 400, body := Body.h [("error", err)] })
  | Except.ok updatedItem =>
    match mapLookup w.items id with
    | none => (w, { status := 404, body := Body.h [("message", "Item not found")] })
    | some existing =>
      let item : Item :=
        { existing with Name := updatedItem.Name, Description := updatedItem.Description }
      let w1 : World := { w with items := mapStore w.items id item }
      let w2 := logInfo w1 env
        [("action", "update"), ("item_id", id), ("item_name", item.Name),
         ("description", item.Description)] "Item updated"
      let w3 := (redisSet w2 env id (jsonMarshal item)).1
      (w3, { status := 200, body := Body.item item })

/-- Handler `deleteItem`. -/
def deleteItem (w : World) (env : Env) (id : String) : World × Response :=
  match mapLookup w.items id with
  | none => (w, { status := 404, body := Body.h [("message", "Item not found")] })
  | some _ =>
    let w1 : World := { w with items := mapDelete w.items id }
    let w2 := logInfo w1 env [("action", "delete"), ("item_id", id)] "Item deleted"
    let w3 := (redisDel w2 env id).1
    (w3, { status := 200, body := Body.h [("message", "Item deleted")] })

/-- The router of `main`: one request is served by the handler of its route. -/
def step (w : World) (s : Step) : World × Response :=
  match s.req with
  | Request.create bind => createItem w s.env bind
  | Request.list => getItems w
  | Request.get id => getItem w id
  | Request.update id bind => updateItem w s.env id bind
  | Request.delete id => deleteItem w s.env id

/-- The state after serving a sequence of requests one after another. -/
def exec (w : World) : List Step → World
  | [] => w
  | s :: rest => exec (step w s).1 rest

/-! ## Observations on a run -/

/-- A change of the registry's key set that a response reports: a `201` of
`createItem` returns the id it inserted, a `200` of `deleteItem` removed the
path id. -/
inductive Event where
  | created (id : String)
  | removed (id : String)
deriving DecidableEq, Repr

/-- The event a request and its response stand for, if any. -/
def eventOf (req : Request) (resp : Response) : Option Event :=
  match req, resp.body with
  | Request.create _, Body.item it =>
    if resp.status = 201 then some (Event.created it.ID) else none
  | Request.delete id, _ =>
    if resp.status = 200 then some (Event.removed id) else none
  | _, _ => none

/-- The events of a run, oldest first. -/
def events (w : World) : List Step → List Event
  | [] => []
  | s :: rest => (eventOf s.req (step w s).2).toList ++ events (step w s).1 rest

/-- Id of a `created` event. -/
def Event.createdId : Event → Option String
  | Event.created i => some i
  | Event.removed _ => none

/-- Id of a `removed` event. -/
def Event.removedId : Event → Option String
  | Event.created _ => none
  | Event.removed i => some i

/-- The ids returned by the successful creates of a run. -/
def createdIds (w : World) (steps : List Step) : List String :=
  (events w steps).filterMap Event.createdId

/-- The ids removed by the successful deletes of a run. -/
def deletedIds (w : World) (steps : List Step) : List String :=
  (events w steps).filterMap Event.removedId

/-- No create returns an id that an earlier successful delete removed; `gone`
holds the ids removed so far. -/
def freshCreates : List String → List Event → Bool
  | _, [] => true
  | gone, Event.created i :: rest => !gone.contains i && freshCreates gone rest
  | gone, Event.removed i :: rest => freshCreates (i :: gone) rest

/-- The ids of the items in the list `getItems` responds with. -/
def listedIds (w : World) : List String :=
  match (getItems w).2.body with
  | Body.itemList (some l) => l.map Item.ID
  | _ => []

/-- The values `time.Now().UnixNano()` returned to `createItem` during a run:
the clock is read once by every create whose body binds. -/
def clockReadings : List Step → List Int
  | [] => []
  | s :: rest =>
    (match s.req with
      | Request.create (Except.ok _) => [s.env.now]
      | _ => []) ++ clockReadings rest

/-- Registry invariant: every entry's item has a non-empty `ID` equal to its key. -/
def RegistryInv (items : List (String × Item)) : Prop :=
  ∀ p ∈ items, p.2.ID ≠ "" ∧ p.2.ID = p.1

/-- The JSON text `c.JSON` writes for a `[]Item`: `null` for the nil slice, an
array otherwise. -/
def renderItemList : Option (List Item) → String
  | none => "null"
  | some l => "[" ++ ",".intercalate (l.map jsonMarshal) ++ "]"

/-! ## Reference status table -/

/-- Whether the request reads a body that fails to bind. -/
def bindFails : Request → Bool
  | Request.create (Except.error _) => true
  | Request.update _ (Except.error _) => true
  | _ => false

/-- The path id of a get, update or delete. -/
def pathId : Request → Option String
  | Request.get id => some id
  | Request.update id _ => some id
  | Request.delete id => some id
  | _ => none

/-- The status table as the specification words it: 400 for a create or update
whose body fails to bind; otherwise 404 for a get, update or delete of an absent
id; otherwise 201 for create and 200 for the rest. -/
def refStatus (items : List (String × Item)) (req : Request) : Nat :=
  if bindFails req then 400
  else
    match pathId req with
    | some id =>
      match mapLookup items id with
      | none => 404
      | some _ => 200
    | none =>
      match req with
      | Request.create _ => 201
      | _ => 200

/-- Value of a decimal digit character. -/
def charVal (c : Char) : Nat := c.toNat - 48

/-- Value of a digit string read on top of `init`. -/
def parseNat (init : Nat) (l : List Char) : Nat :=
  l.foldl (fun a c => 10 * a + charVal c) init

/-- Mirror consistency: the Redis store holds exactly the keys of the registry,
each mapped to the JSON serialisation of the registry's item. -/
def MirrorConsistent (w : World) : Prop :=
  ∀ k, mapLookup w.redis k = (mapLookup w.items k).map jsonMarshal

/-! ## Association-list lemmas -/

theorem mapLookup_mapDelete {V : Type} (m : List (String × V)) (k k' : String) :
    mapLookup (mapDelete m k) k' = if k' = k then none else mapLookup m k' := by
  induction m with
  | nil => simp [mapDelete, mapLookup]
  | cons p rest ih =>
    obtain ⟨a, v⟩ := p
    unfold mapDelete at ih ⊢
    by_cases hak : a = k
    · subst hak
      by_cases hk : k' = a
      · subst hk
        simpa [List.filter_cons] using ih
      · have hne : ¬ a = k' := fun h => hk h.symm
        simpa [List.filter_cons, mapLookup, hne] using ih
    · by_cases hk : k' = k
      · subst hk
        simpa [List.filter_cons, hak, mapLookup] using ih
      · by_cases hak' : a = k'
        · simp [List.filter_cons, hak, mapLookup, hak', hk]
        · simpa [List.filter_cons, hak, mapLookup, hak', hk] using ih

theorem mapLookup_mapStore {V : Type} (m : List (String × V)) (k k' : String) (v : V) :
    mapLookup (mapStore m k v) k' = if k' = k then some v else mapLookup m k' := by
  unfold mapStore
  by_cases hk : k' = k
  · subst hk
    simp [mapLookup]
  · have hne : ¬ k = k' := fun h => hk h.symm
    simp [mapLookup, hne, hk, mapLookup_mapDelete]

theorem mem_mapDelete {V : Type} (m : List (String × V)) (k : String) (p : String × V) :
    p ∈ mapDelete m k ↔ p ∈ m ∧ p.1 ≠ k := by
  simp [mapDelete]

theorem mem_of_mapLookup {V : Type} (m : List (String × V)) (k : String) (v : V)
    (h : mapLookup m k = some v) : (k, v) ∈ m := by
  induction m with
  | nil => simp [mapLookup] at h
  | cons p rest ih =>
    obtain ⟨a, x⟩ := p
    by_cases hak : a = k
    · subst hak
      simp [mapLookup] at h
      simp [h]
    · simp [mapLookup, hak] at h
      exact List.mem_cons_of_mem _ (ih h)

theorem mapLookup_isSome_iff {V : Type} (m : List (String × V)) (k : String) :
    (mapLookup m k).isSome = true ↔ k ∈ m.map Prod.fst := by
  induction m with
  | nil => simp [mapLookup]
  | cons p rest ih =>
    obtain ⟨a, x⟩ := p
    by_cases hak : a = k
    · subst hak
      simp [mapLookup]
    · have hne : ¬ k = a := fun h => hak h.symm
      simp only [mapLookup, hak, if_false, List.map_cons, List.mem_cons, hne, false_or]
      exact ih

/-! ## Effect of the handlers on the registry -/

@[simp] theorem logInfo_items (w : World) (env : Env) (f : List (String × String)) (msg : String) :
    (logInfo w env f msg).items = w.items := rfl

@[simp] theorem logInfo_redis (w : World) (env : Env) (f : List (String × String)) (msg : String) :
    (logInfo w env f msg).redis = w.redis := rfl

@[simp] theorem logInfo_redisCalls (w : World) (env : Env) (f : List (String × String))
    (msg : String) : (logInfo w env f msg).redisCalls = w.redisCalls := rfl

@[simp] theorem redisSet_items (w : World) (env : Env) (k v : String) :
    (redisSet w env k v).1.items = w.items := rfl

@[simp] theorem redisDel_items (w : World) (env : Env) (k : String) :
    (redisDel w env k).1.items = w.items := rfl

theorem createItem_ok (w : World) (env : Env) (b : Item) :
    (createItem w env (Except.ok b)).2 =
        { status := 201, body := Body.item { b with ID := formatInt env.now } } ∧
      (createItem w env (Except.ok b)).1.items =
        mapStore w.items (formatInt env.now) { b with ID := formatInt env.now } :=
  ⟨rfl, rfl⟩

theorem updateItem_ok (w : World) (env : Env) (id : String) (b old : Item)
    (h : mapLookup w.items id = some old) :
    (updateItem w env id (Except.ok b)).2 =
        { status := 200, body := Body.item { old with Name := b.Name, Description := b.Description } } ∧
      (updateItem w env id (Except.ok b)).1.items =
        mapStore w.items id { old with Name := b.Name, Description := b.Description } := by
  simp [updateItem, h]

theorem updateItem_absent (w : World) (env : Env) (id : String) (b : Item)
    (h : mapLookup w.items id = none) :
    updateItem w env id (Except.ok b) =
      (w, { status := 404, body := Body.h [("message", "Item not found")] }) := by
  simp [updateItem, h]

theorem deleteItem_present (w : World) (env : Env) (id : String) (old : Item)
    (h : mapLookup w.items id = some old) :
    (deleteItem w env id).2 = { status := 200, body := Body.h [("message", "Item deleted")] } ∧
      (deleteItem w env id).1.items = mapDelete w.items id := by
  simp [deleteItem, h]

theorem deleteItem_absent (w : World) (env : Env) (id : String)
    (h : mapLookup w.items id = none) :
    deleteItem w env id =
      (w, { status := 404, body := Body.h [("message", "Item not found")] }) := by
  simp [deleteItem, h]

/-! ## Single-request properties -/

/-- C1: when `createItem` responds 201 with an item of id `i`, the request body
bound, and `getItem` for `i` on the resulting registry responds 200 with the item
of id `i` carrying exactly the name and description of the request body. -/
theorem get_after_create (w : World) (env : Env) (bind : Except String Item) (it : Item)
    (h : (createItem w env bind).2 = { status := 201, body := Body.item it }) :
    ∃ b, bind = Except.ok b ∧
      (getItem (createItem w env bind).1 it.ID).2 =
        { status := 200,
          body := Body.item { ID := it.ID, Name := b.Name, Description := b.Description } } := by
  cases bind with
  | error err => simp [createItem] at h
  | ok b =>
    refine ⟨b, rfl, ?_⟩
    have hr := createItem_ok w env b
    rw [hr.1] at h
    have hit : it = { b with ID := formatInt env.now } := by
      simp only [Response.mk.injEq, Body.item.injEq, true_and] at h
      exact h.symm
    subst hit
    simp [getItem, hr.2, mapLookup_mapStore]

theorem get_after_create_witness :
    ∃ b, (Except.ok { ID := "x", Name := "a", Description := "b" } : Except String Item) =
        Except.ok b ∧
      (getItem (createItem emptyWorld { now := 7, logOk := true, redisOk := true }
          (Except.ok { ID := "x", Name := "a", Description := "b" })).1
          (Item.mk "7" "a" "b").ID).2 =
        { status := 200,
          body := Body.item { ID := (Item.mk "7" "a" "b").ID, Name := b.Name,
                              Description := b.Description } } :=
  get_after_create emptyWorld { now := 7, logOk := true, redisOk := true }
    (Except.ok { ID := "x", Name := "a", Description := "b" }) (Item.mk "7" "a" "b") (by decide)

/-- C2: on a registry satisfying the registry invariant that contains id `i`, an
update on path id `i` whose body binds responds 200 and leaves the registry
mapping `i` to the item with id `i` (the existing item's id, whatever id the
body carries) and with exactly the body's name and description. -/
theorem update_replaces_name_description (w : World) (env : Env) (i : String) (b old : Item)
    (hinv : RegistryInv w.items) (hold : mapLookup w.items i = some old) :
    (updateItem w env i (Except.ok b)).2.status = 200 ∧
      mapLookup (updateItem w env i (Except.ok b)).1.items i =
        some { ID := i, Name := b.Name, Description := b.Description } ∧
      old.ID = i := by
  have hr := updateItem_ok w env i b old hold
  have hid : old.ID = i := (hinv (i, old) (mem_of_mapLookup _ _ _ hold)).2
  refine ⟨by rw [hr.1], ?_, hid⟩
  rw [hr.2, mapLookup_mapStore]
  simp [hid]

theorem update_replaces_name_description_witness :
    (updateItem { emptyWorld with items := [("7", Item.mk "7" "a" "b")] }
        { now := 9, logOk := false, redisOk := true } "7"
        (Except.ok (Item.mk "other" "c" "d"))).2.status = 200 ∧
      mapLookup (updateItem { emptyWorld with items := [("7", Item.mk "7" "a" "b")] }
        { now := 9, logOk := false, redisOk := true } "7"
        (Except.ok (Item.mk "other" "c" "d"))).1.items "7" =
        some { ID := "7", Name := (Item.mk "other" "c" "d").Name,
               Description := (Item.mk "other" "c" "d").Description } ∧
      (Item.mk "7" "a" "b").ID = "7" :=
  update_replaces_name_description { emptyWorld with items := [("7", Item.mk "7" "a" "b")] }
    { now := 9, logOk := false, redisOk := true } "7" (Item.mk "other" "c" "d")
    (Item.mk "7" "a" "b") (by unfold RegistryInv; decide) (by decide)

/-- C3: for every state and id, `deleteItem` for the id followed by `getItem`
for the same id responds 404 with body `{message: "Item not found"}`, whether or
not the id was present before the delete. -/
theorem get_after_delete (w : World) (env : Env) (id : String) :
    (getItem (deleteItem w env id).1 id).2 =
      { status := 404, body := Body.h [("message", "Item not found")] } := by
  cases hl : mapLookup w.items id with
  | none =>
    rw [deleteItem_absent w env id hl]
    simp [getItem, hl]
  | some old =>
    have hr := deleteItem_present w env id old hl
    simp [getItem, hr.2, mapLookup_mapDelete]

/-- C8: for every state and request the response status is the one of the
reference table `refStatus`; an update with a malformed body on an absent id
responds 400; and a 404 response carries the body `{message: "Item not found"}`. -/
theorem status_matches_reference (w : World) (s : Step) :
    (step w s).2.status = refStatus w.items s.req ∧
      (∀ id err, mapLookup w.items id = none →
        (updateItem w s.env id (Except.error err)).2.status = 400) ∧
      ((step w s).2.status = 404 →
        (step w s).2.body = Body.h [("message", "Item not found")]) := by
  refine ⟨?_, fun id err _ => rfl, ?_⟩
  · obtain ⟨req, env⟩ := s
    cases req with
    | create bind => cases bind <;> rfl
    | list => rfl
    | get id =>
      cases hl : mapLookup w.items id <;> simp [step, getItem, refStatus, bindFails, pathId, hl]
    | update id bind =>
      cases bind with
      | error err => rfl
      | ok b =>
        cases hl : mapLookup w.items id <;>
          simp [step, updateItem, refStatus, bindFails, pathId, hl]
    | delete id =>
      cases hl : mapLookup w.items id <;>
        simp [step, deleteItem, refStatus, bindFails, pathId, hl]
  · obtain ⟨req, env⟩ := s
    cases req with
    | create bind => cases bind <;> simp [step, createItem]
    | list => simp [step, getItems]
    | get id =>
      cases hl : mapLookup w.items id <;> simp [step, getItem, hl]
    | update id bind =>
      cases bind with
      | error err => simp [step, updateItem]
      | ok b =>
        cases hl : mapLookup w.items id <;> simp [step, updateItem, hl]
    | delete id =>
      cases hl : mapLookup w.items id <;> simp [step, deleteItem, hl]

theorem status_matches_reference_witness :
    (step emptyWorld { req := Request.get "1", env := { now := 1, logOk := true, redisOk := true } }).2.body =
      Body.h [("message", "Item not found")] :=
  (status_matches_reference emptyWorld
    { req := Request.get "1", env := { now := 1, logOk := true, redisOk := true } }).2.2 (by decide)

/-- C9: for every handler, state and request, two runs that differ only in the
outcomes of the Logstash write and of the Redis call produce the same response
and the same registry. -/
theorem side_channel_outcomes_do_not_propagate (w : World) (req : Request) (now : Int)
    (logOk redisOk logOk' redisOk' : Bool) :
    (step w { req := req, env := { now := now, logOk := logOk, redisOk := redisOk } }).2 =
        (step w { req := req, env := { now := now, logOk := logOk', redisOk := redisOk' } }).2 ∧
      (step w { req := req, env := { now := now, logOk := logOk, redisOk := redisOk } }).1.items =
        (step w { req := req, env := { now := now, logOk := logOk', redisOk := redisOk' } }).1.items := by
  cases req with
  | create bind => cases bind <;> exact ⟨rfl, rfl⟩
  | list => exact ⟨rfl, rfl⟩
  | get id => exact ⟨rfl, rfl⟩
  | update id bind =>
    cases bind with
    | error err => exact ⟨rfl, rfl⟩
    | ok b =>
      cases hl : mapLookup w.items id <;> simp [step, updateItem, hl]
  | delete id =>
    cases hl : mapLookup w.items id <;> simp [step, deleteItem, hl]

/-! ## Decimal rendering: non-empty and injective -/

theorem charVal_digit (d : Nat) (h : d < 10) : charVal (Char.ofNat (48 + d)) = d := by
  interval_cases d <;> rfl

theorem digitsAux_ne_nil (fuel n : Nat) (acc : List Char) (h : acc ≠ [] ∨ 0 < fuel) :
    digitsAux fuel n acc ≠ [] := by
  induction fuel generalizing n acc with
  | zero =>
    rcases h with h | h
    · simpa [digitsAux] using h
    · exact absurd h (Nat.lt_irrefl 0)
  | succ fuel ih =>
    unfold digitsAux
    split
    · exact List.cons_ne_nil _ _
    · exact ih _ _ (Or.inl (List.cons_ne_nil _ _))

theorem parseNat_digitsAux (fuel n : Nat) (acc : List Char) (h : n < fuel) :
    parseNat 0 (digitsAux fuel n acc) = parseNat n acc := by
  induction fuel generalizing n acc with
  | zero => exact absurd h (Nat.not_lt_zero n)
  | succ fuel ih =>
    unfold digitsAux
    have hd : charVal (Char.ofNat (48 + n % 10)) = n % 10 :=
      charVal_digit _ (Nat.mod_lt _ (by decide))
    by_cases h0 : n / 10 = 0
    · have hn : n % 10 = n := by omega
      simp only [h0, if_true, parseNat, List.foldl_cons, hd]
      simp [hn]
    · have hlt : n / 10 < fuel := by omega
      simp only [h0, if_false]
      rw [ih _ _ hlt]
      simp only [parseNat, List.foldl_cons, hd]
      have : 10 * (n / 10) + n % 10 = n := Nat.div_add_mod n 10
      rw [this]

theorem formatNat_injective : Function.Injective formatNat := by
  intro a b hab
  have ha : parseNat 0 (formatNat a) = a := by
    unfold formatNat
    rw [parseNat_digitsAux _ _ _ (Nat.lt_succ_self a)]
    rfl
  have hb : parseNat 0 (formatNat b) = b := by
    unfold formatNat
    rw [parseNat_digitsAux _ _ _ (Nat.lt_succ_self b)]
    rfl
  rw [← ha, ← hb, hab]

theorem digitsAux_chars (fuel n : Nat) (acc : List Char) :
    ∀ c ∈ digitsAux fuel n acc, c ∈ acc ∨ ∃ d, d < 10 ∧ c = Char.ofNat (48 + d) := by
  induction fuel generalizing n acc with
  | zero => intro c hc; exact Or.inl (by simpa [digitsAux] using hc)
  | succ fuel ih =>
    intro c hc
    unfold digitsAux at hc
    have hdig : ∃ d, d < 10 ∧ Char.ofNat (48 + n % 10) = Char.ofNat (48 + d) :=
      ⟨n % 10, Nat.mod_lt _ (by decide), rfl⟩
    split at hc
    · rcases List.mem_cons.1 hc with h | h
      · exact Or.inr (h ▸ hdig)
      · exact Or.inl h
    · rcases ih _ _ c hc with h | h
      · rcases List.mem_cons.1 h with h | h
        · exact Or.inr (h ▸ hdig)
        · exact Or.inl h
      · exact Or.inr h

theorem minus_not_mem_formatNat (n : Nat) : Char.ofNat 45 ∉ formatNat n := by
  intro hmem
  rcases digitsAux_chars _ _ _ _ hmem with h | ⟨d, hd, h⟩
  · simp at h
  · have hv : charVal (Char.ofNat 45) = charVal (Char.ofNat (48 + d)) := by rw [h]
    rw [charVal_digit d hd] at hv
    interval_cases d <;> revert h <;> decide

theorem formatInt_injective : Function.Injective formatInt := by
  intro a b hab
  have hd : (formatInt a).data = (formatInt b).data := congrArg String.data hab
  cases a with
  | ofNat m =>
    cases b with
    | ofNat n =>
      simp only [formatInt] at hd
      rw [formatNat_injective hd]
    | negSucc n =>
      simp only [formatInt] at hd
      exact absurd (hd ▸ List.mem_cons_self _ _) (minus_not_mem_formatNat m)
  | negSucc m =>
    cases b with
    | ofNat n =>
      simp only [formatInt] at hd
      exact absurd (hd.symm ▸ List.mem_cons_self _ _) (minus_not_mem_formatNat n)
    | negSucc n =>
      simp only [formatInt, List.cons.injEq, true_and] at hd
      have := formatNat_injective hd
      have hmn : m = n := by omega
      rw [hmn]

theorem formatInt_ne_empty (z : Int) : formatInt z ≠ "" := by
  intro h
  have hd : (formatInt z).data = [] := by rw [h]
  cases z with
  | ofNat n =>
    simp only [formatInt] at hd
    exact digitsAux_ne_nil _ _ _ (Or.inr (Nat.succ_pos n)) hd
  | negSucc n =>
    simp [formatInt] at hd

/-! ## Registry invariant -/

theorem registryInv_mapDelete (m : List (String × Item)) (k : String) (h : RegistryInv m) :
    RegistryInv (mapDelete m k) := fun p hp => h p ((mem_mapDelete m k p).1 hp).1

theorem registryInv_mapStore (m : List (String × Item)) (k : String) (it : Item)
    (h : RegistryInv m) (hk : it.ID ≠ "") (hid : it.ID = k) :
    RegistryInv (mapStore m k it) := by
  intro p hp
  rcases List.mem_cons.1 hp with hp | hp
  · subst hp
    exact ⟨hk, hid⟩
  · exact registryInv_mapDelete m k h p hp

theorem step_preserves_registryInv (w : World) (s : Step) (h : RegistryInv w.items) :
    RegistryInv (step w s).1.items := by
  obtain ⟨req, env⟩ := s
  cases req with
  | create bind =>
    cases bind with
    | error err => exact h
    | ok b =>
      have hr := (createItem_ok w env b).2
      show RegistryInv (createItem w env (Except.ok b)).1.items
      rw [hr]
      exact registryInv_mapStore _ _ _ h (formatInt_ne_empty env.now) rfl
  | list => exact h
  | get id =>
    show RegistryInv (getItem w id).1.items
    unfold getItem
    split <;> exact h
  | update id bind =>
    cases bind with
    | error err => exact h
    | ok b =>
      show RegistryInv (updateItem w env id (Except.ok b)).1.items
      cases hl : mapLookup w.items id with
      | none => rw [updateItem_absent w env id b hl]; exact h
      | some old =>
        rw [(updateItem_ok w env id b old hl).2]
        have ho := h (id, old) (mem_of_mapLookup _ _ _ hl)
        exact registryInv_mapStore _ _ _ h ho.1 ho.2
  | delete id =>
    show RegistryInv (deleteItem w env id).1.items
    cases hl : mapLookup w.items id with
    | none => rw [deleteItem_absent w env id hl]; exact h
    | some old =>
      rw [(deleteItem_present w env id old hl).2]
      exact registryInv_mapDelete _ _ h

theorem exec_preserves_registryInv (steps : List Step) (w : World) (h : RegistryInv w.items) :
    RegistryInv (exec w steps).items := by
  induction steps generalizing w with
  | nil => exact h
  | cons s rest ih => exact ih _ (step_preserves_registryInv w s h)

/-- C6: the registry invariant (every entry's item has a non-empty `ID` equal to
its key) holds of the initial empty registry and is preserved by each of the five
handlers for every request, whatever id an update body carries. -/
theorem registry_invariant :
    RegistryInv emptyWorld.items ∧
      (∀ (w : World) (env : Env) (bind : Except String Item),
        RegistryInv w.items → RegistryInv (createItem w env bind).1.items) ∧
      (∀ (w : World), RegistryInv w.items → RegistryInv (getItems w).1.items) ∧
      (∀ (w : World) (id : String), RegistryInv w.items → RegistryInv (getItem w id).1.items) ∧
      (∀ (w : World) (env : Env) (id : String) (bind : Except String Item),
        RegistryInv w.items → RegistryInv (updateItem w env id bind).1.items) ∧
      (∀ (w : World) (env : Env) (id : String),
        RegistryInv w.items → RegistryInv (deleteItem w env id).1.items) :=
  ⟨fun p hp => absurd hp (List.not_mem_nil p),
   fun w env bind h => step_preserves_registryInv w { req := Request.create bind, env := env } h,
   fun _ h => h,
   fun w id h => step_preserves_registryInv w
     { req := Request.get id, env := { now := 0, logOk := true, redisOk := true } } h,
   fun w env id bind h =>
     step_preserves_registryInv w { req := Request.update id bind, env := env } h,
   fun w env id h => step_preserves_registryInv w { req := Request.delete id, env := env } h⟩

theorem registry_invariant_witness :
    RegistryInv (updateItem { emptyWorld with items := [("7", Item.mk "7" "a" "b")] }
      { now := 9, logOk := true, redisOk := true } "7"
      (Except.ok (Item.mk "other" "c" "d"))).1.items :=
  registry_invariant.2.2.2.2.1 { emptyWorld with items := [("7", Item.mk "7" "a" "b")] }
    { now := 9, logOk := true, redisOk := true } "7" (Except.ok (Item.mk "other" "c" "d"))
    (by unfold RegistryInv; decide)

/-! ## The list response -/

theorem foldl_sliceAppend_some (l : List (String × Item)) (acc : List Item) :
    l.foldl (fun a p => sliceAppend a p.2) (some acc) = some (acc ++ l.map Prod.snd) := by
  induction l generalizing acc with
  | nil => simp
  | cons p rest ih =>
    show List.foldl (fun a p => sliceAppend a p.2) (some (acc ++ [p.2])) rest = _
    rw [ih]
    simp

theorem getItems_nonempty (w : World) (h : w.items ≠ []) :
    (getItems w).2 = { status := 200, body := Body.itemList (some (w.items.map Prod.snd)) } := by
  have hg : (getItems w).2 =
      { status := 200,
        body := Body.itemList (w.items.foldl (fun a p => sliceAppend a p.2) none) } := rfl
  rw [hg]
  cases hw : w.items with
  | nil => exact absurd hw h
  | cons p rest =>
    have hf : List.foldl (fun a p => sliceAppend a p.2) none (p :: rest) =
        List.foldl (fun a p => sliceAppend a p.2) (some [p.2]) rest := rfl
    rw [hf, foldl_sliceAppend_some]
    simp

theorem getItems_empty (w : World) (h : w.items = []) :
    (getItems w).2 = { status := 200, body := Body.itemList none } := by
  simp [getItems, h]

/-- C7, counterexample: on the empty registry the list `getItems` passes to the
response is not the empty list. -/
theorem getItems_empty_not_empty_list :
    ¬ ((getItems emptyWorld).2 = { status := 200, body := Body.itemList (some []) }) := by
  decide

/-- C7, amended: when the registry is empty `getItems` responds 200 and passes
the nil slice, which is written as JSON `null`; when the registry is not empty
it responds 200 with the non-nil list of all items of the registry. -/
theorem getItems_list (w : World) :
    (w.items = [] →
      (getItems w).2 = { status := 200, body := Body.itemList none } ∧
        renderItemList none = "null") ∧
    (w.items ≠ [] →
      (getItems w).2 =
        { status := 200, body := Body.itemList (some (w.items.map Prod.snd)) }) :=
  ⟨fun h => ⟨getItems_empty w h, rfl⟩, getItems_nonempty w⟩

theorem getItems_list_witness :
    (getItems emptyWorld).2 = { status := 200, body := Body.itemList none } ∧
      renderItemList none = "null" :=
  (getItems_list emptyWorld).1 rfl

/-! ## Events of a step -/

theorem eventOf_create_ok (w : World) (env : Env) (b : Item) :
    eventOf (Request.create (Except.ok b))
        (step w { req := Request.create (Except.ok b), env := env }).2 =
      some (Event.created (formatInt env.now)) := rfl

theorem eventOf_create_error (w : World) (env : Env) (err : String) :
    eventOf (Request.create (Except.error err))
        (step w { req := Request.create (Except.error err), env := env }).2 = none := rfl

theorem eventOf_list (r : Response) : eventOf Request.list r = none := by
  unfold eventOf; split <;> simp_all

theorem eventOf_get (id : String) (r : Response) : eventOf (Request.get id) r = none := by
  unfold eventOf; split <;> simp_all

theorem eventOf_update (id : String) (bind : Except String Item) (r : Response) :
    eventOf (Request.update id bind) r = none := by
  unfold eventOf; split <;> simp_all

theorem eventOf_delete (id : String) (r : Response) :
    eventOf (Request.delete id) r = if r.status = 200 then some (Event.removed id) else none := by
  unfold eventOf; split <;> simp_all

theorem createdIds_cons (w : World) (s : Step) (rest : List Step) :
    createdIds w (s :: rest) =
      (eventOf s.req (step w s).2).toList.filterMap Event.createdId ++
        createdIds (step w s).1 rest := by
  simp [createdIds, events, List.filterMap_append]

theorem deletedIds_cons (w : World) (s : Step) (rest : List Step) :
    deletedIds w (s :: rest) =
      (eventOf s.req (step w s).2).toList.filterMap Event.removedId ++
        deletedIds (step w s).1 rest := by
  simp [deletedIds, events, List.filterMap_append]

theorem createdIds_eq_map_clock (steps : List Step) (w : World) :
    createdIds w steps = (clockReadings steps).map formatInt := by
  induction steps generalizing w with
  | nil => rfl
  | cons s rest ih =>
    rw [createdIds_cons, ih]
    obtain ⟨req, env⟩ := s
    cases req with
    | create bind =>
      cases bind with
      | error err => simp [eventOf_create_error, clockReadings]
      | ok b => simp [eventOf_create_ok, clockReadings, Event.createdId]
    | list => simp [eventOf_list, clockReadings]
    | get id => simp [eventOf_get, clockReadings]
    | update id bind => simp [eventOf_update, clockReadings]
    | delete id =>
      simp only [eventOf_delete, clockReadings]
      split <;> simp [Event.createdId]

/-! ## Uniqueness of created ids -/

/-- C5, counterexample: two creates that read the same clock value return the
same id. -/
theorem created_ids_collide :
    ¬ (createdIds emptyWorld
        [{ req := Request.create (Except.ok (Item.mk "" "a" "b")),
           env := { now := 5, logOk := true, redisOk := true } },
         { req := Request.create (Except.ok (Item.mk "" "c" "d")),
           env := { now := 5, logOk := true, redisOk := true } }]).Nodup := by
  decide

/-- C5, amended: in every sequence of requests in which the clock values read by
`createItem` are pairwise distinct, the ids returned by the creates are pairwise
distinct, whether or not the items created earlier have since been deleted. -/
theorem created_ids_distinct (steps : List Step) (h : (clockReadings steps).Nodup) :
    (createdIds emptyWorld steps).Nodup := by
  rw [createdIds_eq_map_clock]
  exact List.Nodup.map formatInt_injective h

theorem created_ids_distinct_witness :
    (createdIds emptyWorld
        [{ req := Request.create (Except.ok (Item.mk "" "a" "b")),
           env := { now := 5, logOk := true, redisOk := true } },
         { req := Request.delete "5", env := { now := 6, logOk := true, redisOk := true } },
         { req := Request.create (Except.ok (Item.mk "" "c" "d")),
           env := { now := 7, logOk := true, redisOk := true } }]).Nodup :=
  created_ids_distinct _ (by decide)

/-! ## The key set along a run -/

theorem eventOf_none_of_status (req : Request) (r : Response)
    (h1 : r.status ≠ 201) (h2 : r.status ≠ 200) : eventOf req r = none := by
  unfold eventOf; split <;> simp_all

theorem step_keys (w : World) (s : Step) (k : String) :
    (mapLookup (step w s).1.items k).isSome =
      match eventOf s.req (step w s).2 with
      | none => (mapLookup w.items k).isSome
      | some (Event.created i) => (decide (k = i) || (mapLookup w.items k).isSome)
      | some (Event.removed i) => (!decide (k = i) && (mapLookup w.items k).isSome) := by
  obtain ⟨req, env⟩ := s
  cases req with
  | create bind =>
    cases bind with
    | error err => rw [eventOf_create_error]; rfl
    | ok b =>
      rw [eventOf_create_ok]
      show (mapLookup (createItem w env (Except.ok b)).1.items k).isSome = _
      rw [(createItem_ok w env b).2, mapLookup_mapStore]
      by_cases hk : k = formatInt env.now <;> simp [hk]
  | list => rw [eventOf_list]; rfl
  | get id =>
    rw [eventOf_get]
    show (mapLookup (getItem w id).1.items k).isSome = _
    unfold getItem
    split <;> rfl
  | update id bind =>
    rw [eventOf_update]
    show (mapLookup (updateItem w env id bind).1.items k).isSome = _
    cases bind with
    | error err => rfl
    | ok b =>
      cases hl : mapLookup w.items id with
      | none => rw [updateItem_absent w env id b hl]
      | some old =>
        rw [(updateItem_ok w env id b old hl).2, mapLookup_mapStore]
        by_cases hk : k = id
        · subst hk; simp [hl]
        · simp [hk]
  | delete id =>
    rw [eventOf_delete]
    have hs : step w { req := Request.delete id, env := env } = deleteItem w env id := rfl
    rw [hs]
    cases hl : mapLookup w.items id with
    | none =>
      rw [deleteItem_absent w env id hl]
      simp
    | some old =>
      rw [(deleteItem_present w env id old hl).1, (deleteItem_present w env id old hl).2,
        mapLookup_mapDelete]
      by_cases hk : k = id <;> simp [hk]

theorem freshCreates_not_created (es : List Event) (gone : List String)
    (h : freshCreates gone es = true) : ∀ i ∈ gone, i ∉ es.filterMap Event.createdId := by
  induction es generalizing gone with
  | nil => intro i _; simp
  | cons e rest ih =>
    intro i hi
    cases e with
    | created j =>
      simp only [freshCreates, Bool.and_eq_true, Bool.not_eq_true'] at h
      have hj : j ∉ gone := by simpa using h.1
      have hij : i ≠ j := fun hh => hj (hh ▸ hi)
      have := ih gone h.2 i hi
      simp [List.filterMap_cons, Event.createdId, hij, this]
    | removed j =>
      simp only [freshCreates] at h
      have := ih (j :: gone) h i (List.mem_cons_of_mem _ hi)
      simpa [List.filterMap_cons, Event.createdId] using this

theorem keys_after_run (steps : List Step) :
    ∀ (w : World) (gone : List String), freshCreates gone (events w steps) = true →
      ∀ k, ((mapLookup (exec w steps).items k).isSome = true ↔
        ((mapLookup w.items k).isSome = true ∨ k ∈ createdIds w steps) ∧
          k ∉ deletedIds w steps) := by
  induction steps with
  | nil => intro w gone _ k; simp [exec, createdIds, deletedIds, events]
  | cons s rest ih =>
    intro w gone h k
    have hk := step_keys w s k
    rw [createdIds_cons, deletedIds_cons]
    simp only [events] at h
    show (mapLookup (exec (step w s).1 rest).items k).isSome = true ↔ _
    cases he : eventOf s.req (step w s).2 with
    | none =>
      rw [he] at h hk
      simp only [Option.toList, List.nil_append] at h
      rw [ih _ gone h k, hk]
      simp
    | some e =>
      rw [he] at h hk
      cases e with
      | created i =>
        simp only [Option.toList, List.singleton_append, freshCreates, Bool.and_eq_true] at h
        rw [ih _ gone h.2 k, hk]
        simp only [Option.toList, List.filterMap_cons, Event.createdId, Event.removedId,
          List.filterMap_nil, List.singleton_append, List.nil_append, List.mem_cons,
          Bool.or_eq_true, decide_eq_true_eq]
        tauto
      | removed i =>
        simp only [Option.toList, List.singleton_append, freshCreates] at h
        have hnc := freshCreates_not_created _ _ h i (List.mem_cons_self _ _)
        rw [ih _ (i :: gone) h k, hk]
        simp only [Option.toList, List.filterMap_cons, Event.createdId, Event.removedId,
          List.filterMap_nil, List.singleton_append, List.nil_append, List.mem_cons,
          Bool.and_eq_true, Bool.not_eq_true', decide_eq_false_iff_not]
        have hnc' : k = i → k ∉ createdIds (step w s).1 rest := fun hh => hh ▸ hnc
        tauto

theorem listedIds_eq (w : World) : listedIds w = w.items.map (fun p => p.2.ID) := by
  unfold listedIds
  by_cases h : w.items = []
  · rw [getItems_empty w h, h]; rfl
  · rw [getItems_nonempty w h]
    simp [List.map_map, Function.comp]

theorem mem_listedIds_iff (w : World) (h : RegistryInv w.items) (i : String) :
    i ∈ listedIds w ↔ (mapLookup w.items i).isSome = true := by
  rw [listedIds_eq, mapLookup_isSome_iff]
  have hm : w.items.map (fun p => p.2.ID) = w.items.map Prod.fst :=
    List.map_congr_left (fun p hp => (h p hp).2)
  rw [hm]

/-! ## Listed ids against created and deleted ids -/

/-- C4, counterexample: a create at clock reading 5, a successful delete of the id
it returned and a second create at the same reading leave the item of id `5` in the
list, although `5` is among the ids removed by successful deletes. -/
theorem listed_ids_differ_after_id_reuse :
    ¬ (∀ i, i ∈ listedIds (exec emptyWorld
          [{ req := Request.create (Except.ok (Item.mk "" "a" "b")),
             env := { now := 5, logOk := true, redisOk := true } },
           { req := Request.delete "5", env := { now := 6, logOk := true, redisOk := true } },
           { req := Request.create (Except.ok (Item.mk "" "c" "d")),
             env := { now := 5, logOk := true, redisOk := true } }]) ↔
        i ∈ createdIds emptyWorld
          [{ req := Request.create (Except.ok (Item.mk "" "a" "b")),
             env := { now := 5, logOk := true, redisOk := true } },
           { req := Request.delete "5", env := { now := 6, logOk := true, redisOk := true } },
           { req := Request.create (Except.ok (Item.mk "" "c" "d")),
             env := { now := 5, logOk := true, redisOk := true } }] ∧
        i ∉ deletedIds emptyWorld
          [{ req := Request.create (Except.ok (Item.mk "" "a" "b")),
             env := { now := 5, logOk := true, redisOk := true } },
           { req := Request.delete "5", env := { now := 6, logOk := true, redisOk := true } },
           { req := Request.create (Except.ok (Item.mk "" "c" "d")),
             env := { now := 5, logOk := true, redisOk := true } }]) := by
  intro h
  exact absurd ((h "5").1 (by decide)).2 (by decide)

/-- C4, amended: for every sequence of requests run from the empty registry in
which no create returns an id that an earlier successful delete removed, the ids of
the items `getItems` returns at the end are exactly the ids returned by the
successful creates that are not among the ids removed by successful deletes; and in
every state a list, get or update request, and any request answered 400 or 404,
leaves the set of ids in the registry as it was. -/
theorem listed_ids_eq_created_minus_deleted (steps : List Step)
    (h : freshCreates [] (events emptyWorld steps) = true) :
    (∀ i, i ∈ listedIds (exec emptyWorld steps) ↔
        i ∈ createdIds emptyWorld steps ∧ i ∉ deletedIds emptyWorld steps) ∧
      (∀ (w : World) (s : Step),
        (s.req = Request.list ∨ (∃ id, s.req = Request.get id) ∨
          (∃ id b, s.req = Request.update id b) ∨
          (step w s).2.status = 400 ∨ (step w s).2.status = 404) →
        ∀ k, (mapLookup (step w s).1.items k).isSome = (mapLookup w.items k).isSome) := by
  constructor
  · intro i
    have hinv : RegistryInv (exec emptyWorld steps).items :=
      exec_preserves_registryInv steps emptyWorld (fun p hp => absurd hp (List.not_mem_nil p))
    rw [mem_listedIds_iff _ hinv, keys_after_run steps emptyWorld [] h i]
    simp [emptyWorld, mapLookup]
  · intro w s hs k
    have hk := step_keys w s k
    have he : eventOf s.req (step w s).2 = none := by
      rcases hs with h1 | ⟨id, h1⟩ | ⟨id, b, h1⟩ | h1 | h1
      · rw [h1]; exact eventOf_list _
      · rw [h1]; exact eventOf_get _ _
      · rw [h1]; exact eventOf_update _ _ _
      · exact eventOf_none_of_status _ _ (by omega) (by omega)
      · exact eventOf_none_of_status _ _ (by omega) (by omega)
    rw [he] at hk
    exact hk

theorem listed_ids_eq_created_minus_deleted_witness :
    freshCreates [] (events emptyWorld
        [{ req := Request.create (Except.ok (Item.mk "" "a" "b")),
           env := { now := 5, logOk := true, redisOk := true } },
         { req := Request.list, env := { now := 6, logOk := true, redisOk := true } },
         { req := Request.delete "5", env := { now := 7, logOk := true, redisOk := false } },
         { req := Request.create (Except.ok (Item.mk "" "c" "d")),
           env := { now := 8, logOk := false, redisOk := true } }]) = true ∧
      ((∀ i, i ∈ listedIds (exec emptyWorld
          [{ req := Request.create (Except.ok (Item.mk "" "a" "b")),
             env := { now := 5, logOk := true, redisOk := true } },
           { req := Request.list, env := { now := 6, logOk := true, redisOk := true } },
           { req := Request.delete "5", env := { now := 7, logOk := true, redisOk := false } },
           { req := Request.create (Except.ok (Item.mk "" "c" "d")),
             env := { now := 8, logOk := false, redisOk := true } }]) ↔
        i ∈ createdIds emptyWorld
          [{ req := Request.create (Except.ok (Item.mk "" "a" "b")),
             env := { now := 5, logOk := true, redisOk := true } },
           { req := Request.list, env := { now := 6, logOk := true, redisOk := true } },
           { req := Request.delete "5", env := { now := 7, logOk := true, redisOk := false } },
           { req := Request.create (Except.ok (Item.mk "" "c" "d")),
             env := { now := 8, logOk := false, redisOk := true } }] ∧
        i ∉ deletedIds emptyWorld
          [{ req := Request.create (Except.ok (Item.mk "" "a" "b")),
             env := { now := 5, logOk := true, redisOk := true } },
           { req := Request.list, env := { now := 6, logOk := true, redisOk := true } },
           { req := Request.delete "5", env := { now := 7, logOk := true, redisOk := false } },
           { req := Request.create (Except.ok (Item.mk "" "c" "d")),
             env := { now := 8, logOk := false, redisOk := true } }]) ∧
      (∀ (w : World) (s : Step),
        (s.req = Request.list ∨ (∃ id, s.req = Request.get id) ∨
          (∃ id b, s.req = Request.update id b) ∨
          (step w s).2.status = 400 ∨ (step w s).2.status = 404) →
        ∀ k, (mapLookup (step w s).1.items k).isSome = (mapLookup w.items k).isSome)) :=
  ⟨by decide, listed_ids_eq_created_minus_deleted _ (by decide)⟩

/-! ## The Redis mirror -/

theorem createItem_redis (w : World) (env : Env) (b : Item) (hok : env.redisOk = true) :
    (createItem w env (Except.ok b)).1.redis =
      mapStore w.redis (formatInt env.now) (jsonMarshal { b with ID := formatInt env.now }) := by
  simp [createItem, redisSet, hok]

theorem updateItem_redis (w : World) (env : Env) (id : String) (b old : Item)
    (h : mapLookup w.items id = some old) (hok : env.redisOk = true) :
    (updateItem w env id (Except.ok b)).1.redis =
      mapStore w.redis id
        (jsonMarshal { old with Name := b.Name, Description := b.Description }) := by
  simp [updateItem, redisSet, h, hok]

theorem deleteItem_redis (w : World) (env : Env) (id : String) (old : Item)
    (h : mapLookup w.items id = some old) (hok : env.redisOk = true) :
    (deleteItem w env id).1.redis = mapDelete w.redis id := by
  simp [deleteItem, redisDel, h, hok]

theorem step_preserves_mirror (w : World) (s : Step) (hok : s.env.redisOk = true)
    (h : MirrorConsistent w) : MirrorConsistent (step w s).1 := by
  obtain ⟨req, env⟩ := s
  have hok' : env.redisOk = true := hok
  cases req with
  | create bind =>
    cases bind with
    | error err => exact h
    | ok b =>
      intro k
      show mapLookup (createItem w env (Except.ok b)).1.redis k =
        (mapLookup (createItem w env (Except.ok b)).1.items k).map jsonMarshal
      rw [createItem_redis w env b hok', (createItem_ok w env b).2, mapLookup_mapStore,
        mapLookup_mapStore]
      by_cases hk : k = formatInt env.now
      · simp [hk]
      · simp [hk, h k]
  | list => exact h
  | get id =>
    show MirrorConsistent (getItem w id).1
    unfold getItem
    split <;> exact h
  | update id bind =>
    cases bind with
    | error err => exact h
    | ok b =>
      show MirrorConsistent (updateItem w env id (Except.ok b)).1
      cases hl : mapLookup w.items id with
      | none => rw [updateItem_absent w env id b hl]; exact h
      | some old =>
        intro k
        rw [updateItem_redis w env id b old hl hok', (updateItem_ok w env id b old hl).2,
          mapLookup_mapStore, mapLookup_mapStore]
        by_cases hk : k = id
        · simp [hk]
        · simp [hk, h k]
  | delete id =>
    show MirrorConsistent (deleteItem w env id).1
    cases hl : mapLookup w.items id with
    | none => rw [deleteItem_absent w env id hl]; exact h
    | some old =>
      intro k
      rw [deleteItem_redis w env id old hl hok', (deleteItem_present w env id old hl).2,
        mapLookup_mapDelete, mapLookup_mapDelete]
      by_cases hk : k = id
      · simp [hk]
      · simp [hk, h k]

theorem exec_preserves_mirror (steps : List Step) (w : World)
    (hok : ∀ s ∈ steps, s.env.redisOk = true) (h : MirrorConsistent w) :
    MirrorConsistent (exec w steps) := by
  induction steps generalizing w with
  | nil => exact h
  | cons s rest ih =>
    exact ih _ (fun t ht => hok t (List.mem_cons_of_mem _ ht))
      (step_preserves_mirror w s (hok s (List.mem_cons_self _ _)) h)

theorem step_no_mirror_call (w : World) (s : Step)
    (hs : (step w s).2.status = 400 ∨ (step w s).2.status = 404 ∨ s.req = Request.list ∨
      ∃ id, s.req = Request.get id) :
    (step w s).1.redisCalls = w.redisCalls ∧ (step w s).1.items = w.items := by
  obtain ⟨req, env⟩ := s
  cases req with
  | create bind =>
    cases bind with
    | error err => exact ⟨rfl, rfl⟩
    | ok b =>
      have hst : (step w { req := Request.create (Except.ok b), env := env }).2.status = 201 :=
        rfl
      rcases hs with h1 | h1 | h1 | ⟨id, h1⟩
      · rw [hst] at h1; omega
      · rw [hst] at h1; omega
      · cases h1
      · cases h1
  | list => exact ⟨rfl, rfl⟩
  | get id =>
    show (getItem w id).1.redisCalls = w.redisCalls ∧ (getItem w id).1.items = w.items
    unfold getItem
    split <;> exact ⟨rfl, rfl⟩
  | update id bind =>
    cases bind with
    | error err => exact ⟨rfl, rfl⟩
    | ok b =>
      have hs' : step w { req := Request.update id (Except.ok b), env := env } =
        updateItem w env id (Except.ok b) := rfl
      rw [hs'] at hs ⊢
      cases hl : mapLookup w.items id with
      | none => rw [updateItem_absent w env id b hl]; exact ⟨rfl, rfl⟩
      | some old =>
        rw [(updateItem_ok w env id b old hl).1] at hs
        rcases hs with h1 | h1 | h1 | ⟨id', h1⟩
        · simp at h1
        · simp at h1
        · cases h1
        · cases h1
  | delete id =>
    have hs' : step w { req := Request.delete id, env := env } = deleteItem w env id := rfl
    rw [hs'] at hs ⊢
    cases hl : mapLookup w.items id with
    | none => rw [deleteItem_absent w env id hl]; exact ⟨rfl, rfl⟩
    | some old =>
      rw [(deleteItem_present w env id old hl).1] at hs
      rcases hs with h1 | h1 | h1 | ⟨id', h1⟩
      · simp at h1
      · simp at h1
      · cases h1
      · cases h1

/-- C10: for every sequence of requests run from the empty registry and the empty
Redis store in which every Redis call succeeds, after each request the Redis store
holds exactly the keys of the registry, each mapped to the JSON serialisation of the
registry's item for that key; and in every state a request answered 400 or 404, and
every get and list, issues no Redis call and leaves the registry unchanged. -/
theorem mirror_consistent (steps : List Step) (hok : ∀ s ∈ steps, s.env.redisOk = true) :
    (∀ n, MirrorConsistent (exec emptyWorld (steps.take n))) ∧
      (∀ (w : World) (s : Step),
        ((step w s).2.status = 400 ∨ (step w s).2.status = 404 ∨ s.req = Request.list ∨
          ∃ id, s.req = Request.get id) →
        (step w s).1.redisCalls = w.redisCalls ∧ (step w s).1.items = w.items) :=
  ⟨fun n => exec_preserves_mirror (steps.take n) emptyWorld
      (fun s hs => hok s (List.mem_of_mem_take hs)) (fun _ => rfl),
   step_no_mirror_call⟩

theorem mirror_consistent_witness :
    (∀ s ∈ [({ req := Request.create (Except.ok (Item.mk "" "a" "b")),
               env := { now := 5, logOk := true, redisOk := true } } : Step),
            { req := Request.update "5" (Except.ok (Item.mk "x" "c" "d")),
              env := { now := 6, logOk := false, redisOk := true } },
            { req := Request.delete "5", env := { now := 7, logOk := true, redisOk := true } }],
        s.env.redisOk = true) ∧
      ((∀ n, MirrorConsistent (exec emptyWorld
          (([({ req := Request.create (Except.ok (Item.mk "" "a" "b")),
                env := { now := 5, logOk := true, redisOk := true } } : Step),
             { req := Request.update "5" (Except.ok (Item.mk "x" "c" "d")),
               env := { now := 6, logOk := false, redisOk := true } },
             { req := Request.delete "5",
               env := { now := 7, logOk := true, redisOk := true } }]).take n))) ∧
      (∀ (w : World) (s : Step),
        ((step w s).2.status = 400 ∨ (step w s).2.status = 404 ∨ s.req = Request.list ∨
          ∃ id, s.req = Request.get id) →
        (step w s).1.redisCalls = w.redisCalls ∧ (step w s).1.items = w.items)) :=
  ⟨by decide, mirror_consistent _ (by decide)⟩

end ElkCrud
